import Mathlib

/-!
Shallow embedding of `azk` (src/main.rs), a work-time tracker, together with
proofs settling the specification claims about it.

Modelling conventions:
* Rust `isize` is modelled as `Int` (no overflow is relevant to any claim).
* Rust panics / `Result` errors are modelled as `Option.none`; a `some` value
  is a run that terminates normally.
* The CSV layer is modelled at the record level: a day's log file is a
  `List Record` (the decoded data rows, in file order).
* Rust `/` and `%` on `isize` truncate toward zero: `Int.tdiv` / `Int.tmod`.
-/

/- ## Time codec: src/main.rs `hhmmss_to_s` and `s_to_hhmm` -/

def SECONDS_PER_MINUTE : Int := 60

def SECONDS_PER_HOUR : Int := 60 * 60

/-- One step of Rust `str::parse::<isize>` digit accumulation:
scans ASCII digits, failing on the first non-digit character. -/
def parseDigitsAux : List Char → Nat → Option Nat
  | [], acc => some acc
  | c :: cs, acc =>
    if c.isDigit then parseDigitsAux cs (acc * 10 + (c.toNat - 48)) else none

/-- Digit-string parser: rejects the empty string, as Rust `parse` does. -/
def parseDigits : List Char → Option Nat
  | [] => none
  | c :: cs => parseDigitsAux (c :: cs) 0

/-- Model of Rust `str::parse::<isize>`: an optional single leading sign
followed by one or more ASCII digits (overflow is not modelled). -/
def parseIsize (l : List Char) : Option Int :=
  match l with
  | [] => none
  | c :: cs =>
    if c = '+' then (parseDigits cs).map (fun n => (n : Int))
    else if c = '-' then (parseDigits cs).map (fun n => -(n : Int))
    else (parseDigits (c :: cs)).map (fun n => (n : Int))

/-- Split off everything before the first ':' (and the rest after it);
`none` when the list has no ':'. -/
def breakColon : List Char → Option (List Char × List Char)
  | [] => none
  | c :: cs =>
    if c = ':' then some ([], cs)
    else
      match breakColon cs with
      | none => none
      | some (pre, post) => some (c :: pre, post)

/-- Model of Rust `str::splitn(n, ':')`: at most `n` pieces, the last piece
keeping any remaining ':' characters. -/
def splitnColon : Nat → List Char → List (List Char)
  | 0, _ => []
  | 1, l => [l]
  | n + 2, l =>
    match breakColon l with
    | none => [l]
    | some (pre, post) => pre :: splitnColon (n + 1) post

/-- src/main.rs `hhmmss_to_s`: `splitn(3, ':')`, parse each piece as `isize`
(panicking — here `none` — on any parse failure or missing piece), and return
`h*3600 + m*60 + s`. -/
def hhmmss_to_s (hhmmss : String) : Option Int :=
  match splitnColon 3 hhmmss.data with
  | [hStr, mStr, sStr] =>
    match parseIsize hStr, parseIsize mStr, parseIsize sStr with
    | some h, some m, some s =>
      some (h * SECONDS_PER_HOUR + m * SECONDS_PER_MINUTE + s)
    | _, _, _ => none
  | _ => none

/-- Decimal digits of a `Nat`, most significant first; fuel-structural so that
concrete values reduce by `decide`/`rfl`. The fuel `n + 1` always suffices. -/
def natDigitsAux : Nat → Nat → List Char
  | 0, _ => []
  | fuel + 1, n =>
    if n < 10 then [Nat.digitChar n]
    else natDigitsAux fuel (n / 10) ++ [Nat.digitChar (n % 10)]

def natDigits (n : Nat) : List Char := natDigitsAux (n + 1) n

/-- Decimal rendering of an `Int`, as Rust `Display` produces it. -/
def intDigits (n : Int) : List Char :=
  (if n < 0 then ['-'] else []) ++ natDigits n.natAbs

/-- Model of Rust `format!("{:02}", n)`: zero fill is inserted between the
sign and the digits, up to a total width of 2. -/
def zeroPad2 (n : Int) : String :=
  let sign : List Char := if n < 0 then ['-'] else []
  let ds := natDigits n.natAbs
  ⟨sign ++ List.replicate (2 - (sign.length + ds.length)) '0' ++ ds⟩

/-- src/main.rs `s_to_hhmm`: `format!("{:02}:{:02}", s / 3600, (s % 3600) / 60)`
with Rust (truncating) division and remainder. -/
def s_to_hhmm (s : Int) : String :=
  let hours := Int.tdiv s SECONDS_PER_HOUR
  let minutes := Int.tdiv (Int.tmod s SECONDS_PER_HOUR) SECONDS_PER_MINUTE
  zeroPad2 hours ++ ":" ++ zeroPad2 minutes

/- ## Event log and duration engine: `Record`, `DayInfo`, `read_work_time` -/

/-- src/main.rs `Record`: one decoded CSV data row. -/
structure Record where
  kind : String
  time : String
deriving DecidableEq

/-- src/main.rs `DayInfo`. -/
structure DayInfo where
  start : Int
  duration : Int
deriving DecidableEq

/-- Parse every time string, failing (as the Rust iterator panics) if any
single one is malformed. -/
def parseTimes : List String → Option (List Int)
  | [] => some []
  | t :: ts =>
    match hhmmss_to_s t, parseTimes ts with
    | some v, some vs => some (v :: vs)
    | _, _ => none

/-- src/main.rs `read_work_time`: partition the records on `kind == "strt"`,
sum the parsed times of each side, and return
`{ start := time of first "strt" record (0 if none),
   duration := sum of "strt" times - sum of non-"strt" times }`.
In the `some` branch the head of `adding` is exactly the parsed time of the
first `starts` record, which is what `starts.get(0).map_or(0, ...)` yields. -/
def read_work_time (records : List Record) : Option DayInfo :=
  match parseTimes ((records.filter (fun x => x.kind == "strt")).map Record.time),
        parseTimes ((records.filter (fun x => !(x.kind == "strt"))).map Record.time) with
  | some adding, some subtracting =>
    some ⟨adding.head?.getD 0, adding.sum - subtracting.sum⟩
  | _, _ => none

/-- src/main.rs `update_time` at the record-list level: recompute the day
info, choose `"stop"` when `duration < 0` and `"strt"` otherwise, and append
the new record (`write_record` appends one row). -/
def update_time (records : List Record) (time : String) : Option (List Record) :=
  match read_work_time records with
  | none => none
  | some info =>
    some (records ++ [⟨if info.duration < 0 then "stop" else "strt", time⟩])

/- ## CLI behaviour: the `get` branch of `main`, and `file_path` -/

/-- Observable outcome of one `azk get` run that reached the report stage. -/
structure GetOutput where
  stdoutLines : List String
  stderrLines : List String
  exitCode : Nat
deriving DecidableEq

/-- The `dbg!(start, duration)` line of the `get` branch. It goes to stderr;
its exact text (which also names the source location) is abstracted. -/
def dbgLine (start duration : Int) : String :=
  "dbg: start = " ++ String.mk (intDigits start) ++
    ", duration = " ++ String.mk (intDigits duration)

/-- The `get` branch of src/main.rs `main`: read the day info; when
`duration < 0` print `Work ain't over yet.` on stdout, otherwise print the
worked-for report on stdout (and the `dbg!` line on stderr). Both branches
fall through to `Ok(())`, i.e. exit code 0. -/
def azk_get (records : List Record) (day : String) : Option GetOutput :=
  match read_work_time records with
  | none => none
  | some info =>
    if info.duration < 0 then
      some ⟨["Work ain\x27t over yet."], [], 0⟩
    else
      some ⟨["Worked for " ++ s_to_hhmm info.duration ++ " on " ++ day ++
              ".\nFrom " ++ s_to_hhmm info.start ++ " to " ++
              s_to_hhmm (info.start + info.duration)],
            [dbgLine info.start info.duration], 0⟩

/-- src/main.rs `file_path`: the per-date log location
`<data dir>/<date>.csv` (the platform data directory is a parameter). -/
def file_path (dataDir : String) (date : String) : String :=
  dataDir ++ "/" ++ date ++ ".csv"

/-- In src/main.rs `main`, `file_path(&date)` is computed from today's date
once, before the subcommand dispatch, and the `get` branch opens exactly that
path; the positional DAY argument is never passed to `file_path`. -/
def azk_get_log_path (dataDir today : String) (_dayArg : Option String) : String :=
  file_path dataDir today

/-- In the `get` branch, the day printed in the report is the DAY argument
when present, today otherwise (`sub_matches.get_one("day").unwrap_or(&date)`). -/
def azk_get_printed_day (today : String) (dayArg : Option String) : String :=
  dayArg.getD today

/- ## Claim-side definitions, following the specification's words -/

/-- Spec `DaySummary` (section 3 of the spec). -/
structure DaySummary where
  firstClockIn : Int
  netDuration : Int
  isOpen : Bool
deriving DecidableEq

/-- `summarize` as the spec words it: partition into clock-ins (`"strt"`) and
clock-outs (`"stop"`), `netDuration = sum of clock-out times - sum of clock-in
times`, `firstClockIn = time of first clock-in (0 if none)`,
`isOpen = (netDuration < 0)`. -/
def summarizeSpec (events : List Record) : Option DaySummary :=
  match parseTimes ((events.filter (fun x => x.kind == "strt")).map Record.time),
        parseTimes ((events.filter (fun x => x.kind == "stop")).map Record.time) with
  | some ins, some outs =>
    some ⟨ins.head?.getD 0, outs.sum - ins.sum, decide (outs.sum - ins.sum < 0)⟩
  | _, _ => none

/-- The log location the spec says `get [DAY]` reads: the requested day's,
defaulting to today. -/
def get_log_path_spec (dataDir today : String) (dayArg : Option String) : String :=
  file_path dataDir (dayArg.getD today)

/-- Zero-padded two-digit rendering of a clock component, as the claim words
it (claim C6). -/
def pad2 (n : Nat) : List Char := [Nat.digitChar (n / 10), Nat.digitChar (n % 10)]

/-- The zero-padded `"HH:MM:SS"` encoding of `(h, m, s)` (claim C6). -/
def encodeHHMMSS (h m s : Nat) : String :=
  ⟨pad2 h ++ (':' :: (pad2 m ++ (':' :: pad2 s)))⟩

/-- Full split on ':' (Rust `str::split(':')`): every piece, no piece keeping
a ':'. Used to state what "three ':'-separated components" means (claim C8). -/
def splitColonAll : List Char → List (List Char)
  | [] => [[]]
  | c :: cs =>
    if c = ':' then [] :: splitColonAll cs
    else
      match splitColonAll cs with
      | [] => [[c]]
      | p :: ps => (c :: p) :: ps

/-- Claim C8's description of a well-formed time string: exactly three
':'-separated components, each parsing as an integer. -/
def wellFormedClock (s : String) : Prop :=
  (splitColonAll s.data).length = 3 ∧
    ∀ p ∈ splitColonAll s.data, (parseIsize p).isSome = true

/-- Claim C7's description of `formatClock`: truncation-toward-zero division
and modulo, each component zero-padded to two digits (a one-character decimal
rendering gets a leading '0'; longer renderings, including all negative ones,
are kept as they are). -/
def pad2Spec (n : Int) : String :=
  if (intDigits n).length < 2 then ⟨'0' :: intDigits n⟩ else ⟨intDigits n⟩

def formatClockSpec (s : Int) : String :=
  pad2Spec (Int.tdiv s 3600) ++ ":" ++ pad2Spec (Int.tdiv (Int.tmod s 3600) 60)

/-- Claim C9's kind normalisation: anything other than `"strt"` replaced by
the recognised clock-out tag. -/
def normalizeKind (r : Record) : Record :=
  if r.kind = "strt" then r else ⟨"stop", r.time⟩

/- ## Helper lemmas -/

lemma digitChar_props (d : Nat) (hd : d < 10) :
    (Nat.digitChar d).isDigit = true ∧ (Nat.digitChar d).toNat - 48 = d ∧
      Nat.digitChar d ≠ ':' ∧ Nat.digitChar d ≠ '+' ∧ Nat.digitChar d ≠ '-' := by
  interval_cases d <;> exact ⟨by decide, by decide, by decide, by decide, by decide⟩

lemma parse_pad2 (n : Nat) (hn : n < 100) : parseIsize (pad2 n) = some (n : Int) := by
  obtain ⟨h1, h2, -, h4, h5⟩ := digitChar_props (n / 10) (by omega)
  obtain ⟨g1, g2, -, -, -⟩ := digitChar_props (n % 10) (Nat.mod_lt _ (by norm_num))
  have key : (0 * 10 + (n / 10)) * 10 + n % 10 = n := by omega
  simp only [pad2, parseIsize, if_neg h4, if_neg h5, parseDigits, parseDigitsAux,
    h1, if_pos, h2, g1, g2, key]
  rfl

lemma breakColon_append (A rest : List Char) (hA : ∀ c ∈ A, c ≠ ':') :
    breakColon (A ++ ':' :: rest) = some (A, rest) := by
  induction A with
  | nil => simp [breakColon]
  | cons a as ih =>
    have ha : a ≠ ':' := hA a (List.mem_cons_self a as)
    have ih' := ih (fun c hc => hA c (List.mem_cons_of_mem a hc))
    simp [breakColon, ha, ih']

lemma splitnColon_three (A B C : List Char) (hA : ∀ c ∈ A, c ≠ ':')
    (hB : ∀ c ∈ B, c ≠ ':') :
    splitnColon 3 (A ++ (':' :: (B ++ (':' :: C)))) = [A, B, C] := by
  have h1 := breakColon_append A (B ++ (':' :: C)) hA
  have h2 := breakColon_append B C hB
  rw [show splitnColon 3 (A ++ (':' :: (B ++ (':' :: C)))) =
      (match breakColon (A ++ (':' :: (B ++ (':' :: C)))) with
       | none => [A ++ (':' :: (B ++ (':' :: C)))]
       | some (pre, post) => pre :: splitnColon 2 post) from rfl, h1]
  show A :: splitnColon 2 (B ++ (':' :: C)) = [A, B, C]
  rw [show splitnColon 2 (B ++ (':' :: C)) =
      (match breakColon (B ++ (':' :: C)) with
       | none => [B ++ (':' :: C)]
       | some (pre, post) => pre :: splitnColon 1 post) from rfl, h2]
  rfl

lemma pad2_no_colon (n : Nat) (hn : n < 100) : ∀ c ∈ pad2 n, c ≠ ':' := by
  have d1 := (digitChar_props (n / 10) (by omega)).2.2.1
  have d2 := (digitChar_props (n % 10) (Nat.mod_lt _ (by norm_num))).2.2.1
  intro c hc
  rcases List.mem_cons.mp hc with rfl | hc
  · exact d1
  · rcases List.mem_cons.mp hc with rfl | hc
    · exact d2
    · simp at hc

/-- Claim C6: for all `h ∈ [0,23]`, `m ∈ [0,59]`, `s ∈ [0,59]`, parsing the
zero-padded `"HH:MM:SS"` encoding of `(h, m, s)` with `hhmmss_to_s` yields
exactly `h*3600 + m*60 + s`. -/
theorem c6_parse_clock_roundtrip (h m s : Nat) (hh : h ≤ 23) (hm : m ≤ 59) (hs : s ≤ 59) :
    hhmmss_to_s (encodeHHMMSS h m s) = some ((h : Int) * 3600 + (m : Int) * 60 + (s : Int)) := by
  have hdata : (encodeHHMMSS h m s).data = pad2 h ++ (':' :: (pad2 m ++ (':' :: pad2 s))) := rfl
  rw [hhmmss_to_s, hdata,
    splitnColon_three _ _ _ (pad2_no_colon h (by omega)) (pad2_no_colon m (by omega))]
  simp only [parse_pad2 h (by omega), parse_pad2 m (by omega), parse_pad2 s (by omega)]
  show some ((h : Int) * SECONDS_PER_HOUR + (m : Int) * SECONDS_PER_MINUTE + (s : Int)) = _
  norm_num [SECONDS_PER_HOUR, SECONDS_PER_MINUTE]

theorem c6_parse_clock_roundtrip_witness :
    hhmmss_to_s (encodeHHMMSS 17 30 5) =
      some ((17 : Int) * 3600 + (30 : Int) * 60 + (5 : Int)) :=
  c6_parse_clock_roundtrip 17 30 5 (by decide) (by decide) (by decide)

/-- Claim C1 (code bug): on the day `[ClockIn@09:00:00, ClockOut@17:00:00]`
the code's `read_work_time` returns `duration = -28800` — it computes the sum
of clock-in times minus the sum of clock-out times — while the claimed
summary has `netDuration = sum of clock-outs - sum of clock-ins = 28800`
with `isOpen = false`. -/
theorem c1_duration_sign_bug :
    read_work_time [⟨"strt", "09:00:00"⟩, ⟨"stop", "17:00:00"⟩] = some ⟨32400, -28800⟩ ∧
      summarizeSpec [⟨"strt", "09:00:00"⟩, ⟨"stop", "17:00:00"⟩] =
        some ⟨32400, 28800, false⟩ := by
  exact ⟨by decide, by decide⟩

/-- Claim C2 (code bug): after the single event `ClockIn@09:00:00` the spec's
`netDuration` is `-32400 < 0`, so the claimed next stamp kind is `"stop"`;
the code instead computes `duration = +32400` and appends `"strt"`. -/
theorem c2_next_kind_sign_bug :
    (summarizeSpec [⟨"strt", "09:00:00"⟩]).map DaySummary.netDuration = some (-32400) ∧
      update_time [⟨"strt", "09:00:00"⟩] "17:00:00" =
        some [⟨"strt", "09:00:00"⟩, ⟨"strt", "17:00:00"⟩] := by
  exact ⟨by decide, by decide⟩

/-- Claim C4 (code bug): starting from the empty log, the first stamp appends
`"strt"` as claimed, but the second stamp (at a later wall-clock time)
appends `"strt"` again instead of the claimed `"stop"`. -/
theorem c4_alternation_bug :
    update_time [] "09:00:00" = some [⟨"strt", "09:00:00"⟩] ∧
      update_time [⟨"strt", "09:00:00"⟩] "17:00:00" =
        some [⟨"strt", "09:00:00"⟩, ⟨"strt", "17:00:00"⟩] := by
  exact ⟨by decide, by decide⟩

/-- Claim C5 (code bug): invoked as `get 2023-01-01` on a day when today is
`2023-06-15`, the log that is opened is today's
(`<data>/2023-06-15.csv`), not the requested day's, while the printed report
names the requested day. -/
theorem c5_day_argument_ignored :
    azk_get_log_path "data" "2023-06-15" (some "2023-01-01") = "data/2023-06-15.csv" ∧
      get_log_path_spec "data" "2023-06-15" (some "2023-01-01") = "data/2023-01-01.csv" ∧
      azk_get_log_path "data" "2023-06-15" (some "2023-01-01") ≠
        get_log_path_spec "data" "2023-06-15" (some "2023-01-01") ∧
      azk_get_printed_day "2023-06-15" (some "2023-01-01") = "2023-01-01" := by
  exact ⟨by decide, by decide, by decide, by decide⟩

lemma parseDigitsAux_none (l : List Char) (h : ∃ c ∈ l, c.isDigit = false) :
    ∀ acc, parseDigitsAux l acc = none := by
  induction l with
  | nil => simp at h
  | cons c cs ih =>
    intro acc
    by_cases hc : c.isDigit
    · obtain ⟨d, hd, hdig⟩ := h
      rcases List.mem_cons.mp hd with rfl | hd
      · rw [hc] at hdig; cases hdig
      · simp only [parseDigitsAux, if_pos hc]
        exact ih ⟨d, hd, hdig⟩ _
    · simp only [parseDigitsAux, if_neg hc]

lemma colon_parse_none (l : List Char) (h : ':' ∈ l) : parseIsize l = none := by
  have hbad : ∀ l' : List Char, ':' ∈ l' → ∀ acc, parseDigitsAux l' acc = none :=
    fun l' h' => parseDigitsAux_none l' ⟨':', h', by decide⟩
  have hdig : ∀ l' : List Char, ':' ∈ l' → parseDigits l' = none := by
    intro l' h'
    cases l' with
    | nil => simp at h'
    | cons d ds => simp only [parseDigits]; exact hbad _ h' 0
  cases l with
  | nil => simp at h
  | cons c cs =>
    simp only [parseIsize]
    by_cases h1 : c = '+'
    · rw [if_pos h1]
      have : ':' ∈ cs := by
        rcases List.mem_cons.mp h with h' | h'
        · exact absurd (h' ▸ h1) (by decide)
        · exact h'
      rw [hdig cs this]; rfl
    · rw [if_neg h1]
      by_cases h2 : c = '-'
      · rw [if_pos h2]
        have : ':' ∈ cs := by
          rcases List.mem_cons.mp h with h' | h'
          · exact absurd (h' ▸ h2) (by decide)
          · exact h'
        rw [hdig cs this]; rfl
      · rw [if_neg h2, hdig _ h]; rfl

lemma splitColonAll_ne_nil (l : List Char) : splitColonAll l ≠ [] := by
  cases l with
  | nil => simp [splitColonAll]
  | cons c cs =>
    simp only [splitColonAll]
    by_cases h : c = ':'
    · simp [h]
    · rw [if_neg h]
      rcases hr : splitColonAll cs with _ | ⟨p, ps⟩ <;> simp

lemma breakColon_colon_mem (l p q : List Char) (h : breakColon l = some (p, q)) :
    ':' ∈ l := by
  induction l generalizing p q with
  | nil => cases h
  | cons c cs ih =>
    simp only [breakColon] at h
    by_cases hc : c = ':'
    · exact hc ▸ List.mem_cons_self c cs
    · rw [if_neg hc] at h
      rcases hb : breakColon cs with _ | ⟨p', q'⟩
      · rw [hb] at h; cases h
      · exact List.mem_cons_of_mem c (ih p' q' hb)

lemma splitColonAll_break_none (l : List Char) (h : breakColon l = none) :
    splitColonAll l = [l] := by
  induction l with
  | nil => rfl
  | cons c cs ih =>
    simp only [breakColon] at h
    by_cases hc : c = ':'
    · rw [if_pos hc] at h; cases h
    · rw [if_neg hc] at h
      rcases hb : breakColon cs with _ | ⟨p, q⟩
      · simp [splitColonAll, hc, ih hb]
      · rw [hb] at h; cases h

lemma splitColonAll_break_some (l p q : List Char) (h : breakColon l = some (p, q)) :
    splitColonAll l = p :: splitColonAll q := by
  induction l generalizing p q with
  | nil => cases h
  | cons c cs ih =>
    simp only [breakColon] at h
    by_cases hc : c = ':'
    · rw [if_pos hc] at h
      injection h with h'
      injection h' with hp hq
      subst hp; subst hq
      simp [splitColonAll, hc]
    · rw [if_neg hc] at h
      rcases hb : breakColon cs with _ | ⟨p', q'⟩
      · rw [hb] at h; cases h
      · rw [hb] at h
        injection h with h'
        injection h' with hp hq
        subst hp; subst hq
        simp [splitColonAll, hc, ih p' q' hb]

/-- Claim C8: `hhmmss_to_s` fails (aborting rather than producing a value)
exactly when the string does not consist of three ':'-separated components
each parsing as an integer; in particular the two-component string `"9:60"`
fails. -/
theorem c8_malformed_exact :
    (∀ s : String, hhmmss_to_s s = none ↔ ¬ wellFormedClock s) ∧
      hhmmss_to_s "9:60" = none := by
  refine ⟨fun s => ?_, by decide⟩
  unfold hhmmss_to_s wellFormedClock
  rcases h1 : breakColon s.data with _ | ⟨a, r⟩
  · have e : splitnColon 3 s.data = [s.data] := by
      rw [show splitnColon 3 s.data = (match breakColon s.data with
          | none => [s.data]
          | some (pre, post) => pre :: splitnColon 2 post) from rfl, h1]
    rw [e, splitColonAll_break_none _ h1]
    simp
  · have e0 : splitnColon 3 s.data = a :: splitnColon 2 r := by
      rw [show splitnColon 3 s.data = (match breakColon s.data with
          | none => [s.data]
          | some (pre, post) => pre :: splitnColon 2 post) from rfl, h1]
    rcases h2 : breakColon r with _ | ⟨b, r2⟩
    · have e : splitnColon 3 s.data = [a, r] := by
        rw [e0, show splitnColon 2 r = (match breakColon r with
            | none => [r]
            | some (pre, post) => pre :: splitnColon 1 post) from rfl, h2]
      rw [e, splitColonAll_break_some _ _ _ h1, splitColonAll_break_none _ h2]
      simp
    · have e : splitnColon 3 s.data = [a, b, r2] := by
        rw [e0, show splitnColon 2 r = (match breakColon r with
            | none => [r]
            | some (pre, post) => pre :: splitnColon 1 post) from rfl, h2]
        rfl
      rw [e, splitColonAll_break_some _ _ _ h1, splitColonAll_break_some _ _ _ h2]
      rcases h3 : breakColon r2 with _ | ⟨c2, r3⟩
      · rw [splitColonAll_break_none _ h3]
        rcases pa : parseIsize a with _ | va <;> rcases pb : parseIsize b with _ | vb <;>
          rcases pc : parseIsize r2 with _ | vc <;> simp [pa, pb, pc]
      · have pnone : parseIsize r2 = none := colon_parse_none _ (breakColon_colon_mem _ _ _ h3)
        rw [splitColonAll_break_some _ _ _ h3]
        have hne := splitColonAll_ne_nil r3
        have hlen : (a :: b :: c2 :: splitColonAll r3).length ≠ 3 := by
          simp only [List.length_cons]
          rcases hr : splitColonAll r3 with _ | ⟨x, xs⟩
          · exact absurd hr hne
          · simp
        refine iff_of_true ?_ ?_
        · rcases pa : parseIsize a with _ | va <;> rcases pb : parseIsize b with _ | vb <;>
            simp [pa, pb, pnone]
        · rintro ⟨hl, -⟩
          exact hlen hl

lemma natDigitsAux_stable (n : Nat) :
    ∀ f g, n < f → n < g → natDigitsAux f n = natDigitsAux g n := by
  induction n using Nat.strong_induction_on with
  | _ n ih =>
    intro f g hf hg
    match f, g, hf, hg with
    | f' + 1, g' + 1, _, _ =>
      by_cases h10 : n < 10
      · simp [natDigitsAux, h10]
      · have hd : n / 10 < n := Nat.div_lt_self (by omega) (by norm_num)
        show (if n < 10 then [Nat.digitChar n]
            else natDigitsAux f' (n / 10) ++ [Nat.digitChar (n % 10)]) =
          (if n < 10 then [Nat.digitChar n]
            else natDigitsAux g' (n / 10) ++ [Nat.digitChar (n % 10)])
        rw [if_neg h10, if_neg h10, ih (n / 10) hd f' g' (by omega) (by omega)]

lemma natDigits_eq (n : Nat) :
    natDigits n = if n < 10 then [Nat.digitChar n]
      else natDigits (n / 10) ++ [Nat.digitChar (n % 10)] := by
  show (if n < 10 then [Nat.digitChar n]
      else natDigitsAux n (n / 10) ++ [Nat.digitChar (n % 10)]) = _
  by_cases h10 : n < 10
  · rw [if_pos h10, if_pos h10]
  · rw [if_neg h10, if_neg h10]
    have hd : n / 10 < n := Nat.div_lt_self (by omega) (by norm_num)
    rw [natDigitsAux_stable (n / 10) n (n / 10 + 1) hd (by omega)]
    rfl

lemma natDigits_ne_nil (n : Nat) : natDigits n ≠ [] := by
  rw [natDigits_eq]
  split <;> simp

lemma zeroPad2_eq_pad2Spec (n : Int) : zeroPad2 n = pad2Spec n := by
  have hpos : 0 < (natDigits n.natAbs).length :=
    List.length_pos.mpr (natDigits_ne_nil n.natAbs)
  by_cases hneg : n < 0
  · have h1 : intDigits n = '-' :: natDigits n.natAbs := by
      simp [intDigits, hneg]
    have h2 : ¬ (intDigits n).length < 2 := by
      rw [h1]
      simp only [List.length_cons]
      omega
    have h3 : 2 - ((['-'] : List Char).length + (natDigits n.natAbs).length) = 0 := by
      simp only [List.length_cons, List.length_nil]
      omega
    rw [pad2Spec, if_neg h2, h1]
    show String.mk ((if n < 0 then ['-'] else []) ++
        List.replicate (2 - ((if n < 0 then ['-'] else [] : List Char).length +
          (natDigits n.natAbs).length)) '0' ++ natDigits n.natAbs) = _
    rw [if_pos hneg, h3]
    simp [List.replicate]
  · have h1 : intDigits n = natDigits n.natAbs := by
      simp [intDigits, hneg]
    show String.mk ((if n < 0 then ['-'] else []) ++
        List.replicate (2 - ((if n < 0 then ['-'] else [] : List Char).length +
          (natDigits n.natAbs).length)) '0' ++ natDigits n.natAbs) = _
    rw [if_neg hneg]
    rcases hlen : (natDigits n.natAbs).length with _ | k
    · omega
    · rcases k with _ | k'
      · have h2 : (intDigits n).length < 2 := by rw [h1, hlen]; norm_num
        rw [pad2Spec, if_pos h2, h1]
        simp [hlen, List.replicate]
      · have h2 : ¬ (intDigits n).length < 2 := by rw [h1, hlen]; omega
        have h3 : 2 - (([] : List Char).length + (natDigits n.natAbs).length) = 0 := by
          rw [hlen]
          simp only [List.length_nil]
          omega
        rw [pad2Spec, if_neg h2, h1]
        simp only [List.length_nil, hlen] at h3 ⊢
        rw [show (2 - (0 + (k' + 1 + 1))) = 0 from by omega]
        simp [List.replicate]

/-- Claim C7: for every integer input (negative values included),
`s_to_hhmm` returns exactly the spec's formatClock string: hours
`= seconds / 3600` and minutes `= (seconds % 3600) / 60` with
truncation-toward-zero division and remainder, each zero-padded to two
digits (the zero fill sitting between sign and digits, as Rust prints it);
e.g. `-3601` formats as `"-1:00"`. -/
theorem c7_format_clock :
    (∀ s : Int, s_to_hhmm s = formatClockSpec s) ∧
      s_to_hhmm (-3601) = "-1:00" ∧ s_to_hhmm 28800 = "08:00" := by
  refine ⟨fun s => ?_, by decide, by decide⟩
  show zeroPad2 (Int.tdiv s SECONDS_PER_HOUR) ++ ":" ++
      zeroPad2 (Int.tdiv (Int.tmod s SECONDS_PER_HOUR) SECONDS_PER_MINUTE) = _
  rw [zeroPad2_eq_pad2Spec, zeroPad2_eq_pad2Spec]
  rfl

lemma filter_map_norm_strt (recs : List Record) :
    (recs.map normalizeKind).filter (fun x => x.kind == "strt") =
      recs.filter (fun x => x.kind == "strt") := by
  induction recs with
  | nil => rfl
  | cons r rs ih =>
    by_cases h : r.kind = "strt"
    · have hr : normalizeKind r = r := by simp [normalizeKind, h]
      simp [List.filter_cons, hr, h, ih]
    · have hn : normalizeKind r = ⟨"stop", r.time⟩ := by simp [normalizeKind, h]
      have hs : (("stop" : String) == "strt") = false := by decide
      simp [List.filter_cons, hn, h, hs, ih]

lemma filter_map_norm_stop_times (recs : List Record) :
    ((recs.map normalizeKind).filter (fun x => !(x.kind == "strt"))).map Record.time =
      (recs.filter (fun x => !(x.kind == "strt"))).map Record.time := by
  induction recs with
  | nil => rfl
  | cons r rs ih =>
    by_cases h : r.kind = "strt"
    · have hr : normalizeKind r = r := by simp [normalizeKind, h]
      simp [List.filter_cons, hr, h, ih]
    · have hn : normalizeKind r = ⟨"stop", r.time⟩ := by simp [normalizeKind, h]
      have hs : (("stop" : String) == "strt") = false := by decide
      simp [List.filter_cons, hn, h, hs, ih]

lemma parseTimes_isSome (ts : List String) :
    (parseTimes ts).isSome = true ↔ ∀ t ∈ ts, (hhmmss_to_s t).isSome = true := by
  induction ts with
  | nil => simp [parseTimes]
  | cons t ts ih =>
    rcases h1 : hhmmss_to_s t with _ | v
    · simp only [parseTimes, h1]
      constructor
      · intro h
        simp at h
      · intro hall
        exact absurd (hall t (List.mem_cons_self t ts)) (by simp [h1])
    · rcases h2 : parseTimes ts with _ | vs
      · simp only [parseTimes, h1, h2]
        constructor
        · intro h
          simp at h
        · intro hall
          have hsome : (parseTimes ts).isSome = true :=
            ih.mpr (fun u hu => hall u (List.mem_cons_of_mem t hu))
          rw [h2] at hsome
          simp at hsome
      · simp only [parseTimes, h1, h2]
        constructor
        · intro _ u hu
          rcases List.mem_cons.mp hu with rfl | hu
          · simp [h1]
          · exact (ih.mp (by rw [h2]; rfl)) u hu
        · intro _
          rfl

lemma read_work_time_isSome (recs : List Record) :
    (read_work_time recs).isSome = true ↔
      ∀ r ∈ recs, (hhmmss_to_s r.time).isSome = true := by
  have hmapA : ∀ r ∈ recs.filter (fun x => x.kind == "strt"), r ∈ recs :=
    fun r hr => List.mem_of_mem_filter hr
  have hmapB : ∀ r ∈ recs.filter (fun x => !(x.kind == "strt")), r ∈ recs :=
    fun r hr => List.mem_of_mem_filter hr
  rcases h1 : parseTimes ((recs.filter (fun x => x.kind == "strt")).map Record.time)
    with _ | adding
  · rw [read_work_time, h1]
    constructor
    · intro h
      simp at h
    · intro hall
      have hsome : (parseTimes ((recs.filter (fun x => x.kind == "strt")).map
          Record.time)).isSome = true := by
        refine (parseTimes_isSome _).mpr ?_
        intro t ht
        obtain ⟨r, hr, rfl⟩ := List.mem_map.mp ht
        exact hall r (hmapA r hr)
      rw [h1] at hsome
      simp at hsome
  · rcases h2 : parseTimes ((recs.filter (fun x => !(x.kind == "strt"))).map Record.time)
      with _ | subtracting
    · rw [read_work_time, h1, h2]
      constructor
      · intro h
        simp at h
      · intro hall
        have hsome : (parseTimes ((recs.filter (fun x => !(x.kind == "strt"))).map
            Record.time)).isSome = true := by
          refine (parseTimes_isSome _).mpr ?_
          intro t ht
          obtain ⟨r, hr, rfl⟩ := List.mem_map.mp ht
          exact hall r (hmapB r hr)
        rw [h2] at hsome
        simp at hsome
    · rw [read_work_time, h1, h2]
      constructor
      · intro _ r hr
        by_cases hk : (r.kind == "strt") = true
        · have hmem : r ∈ recs.filter (fun x => x.kind == "strt") :=
            List.mem_filter.mpr ⟨hr, hk⟩
          exact (parseTimes_isSome _).mp (by rw [h1]; rfl) r.time
            (List.mem_map.mpr ⟨r, hmem, rfl⟩)
        · have hk' : (!(r.kind == "strt")) = true := by
            simp only [Bool.not_eq_true] at hk
            simp [hk]
          have hmem : r ∈ recs.filter (fun x => !(x.kind == "strt")) :=
            List.mem_filter.mpr ⟨hr, hk'⟩
          exact (parseTimes_isSome _).mp (by rw [h2]; rfl) r.time
            (List.mem_map.mpr ⟨r, hmem, rfl⟩)
      · intro _
        rfl

/-- Claim C9: `read_work_time` classifies records by the single test
`kind == "strt"`: replacing every non-`"strt"` kind (such as `"Strt"` or
`"foo"`) by the recognised clock-out tag `"stop"` changes nothing, a record
is never rejected for its kind (the read succeeds iff every time string
parses), and on `[Strt@09:00:00, foo@17:00:00]` both records are counted as
clock-outs. -/
theorem c9_kind_classification :
    (∀ recs : List Record,
        read_work_time (recs.map normalizeKind) = read_work_time recs) ∧
      (∀ recs : List Record,
        (read_work_time recs).isSome = true ↔
          ∀ r ∈ recs, (hhmmss_to_s r.time).isSome = true) ∧
      read_work_time [⟨"Strt", "09:00:00"⟩, ⟨"foo", "17:00:00"⟩] = some ⟨0, -93600⟩ := by
  refine ⟨fun recs => ?_, read_work_time_isSome, by decide⟩
  rw [read_work_time, read_work_time, filter_map_norm_strt, filter_map_norm_stop_times]

/-- Claim C3 counterexample: on the day `[ClockIn@09:00:00]` — open per the
spec's summary — `get` does not print any not-finished message to error
output and does not exit non-zero: it prints a (bogus) worked-for report on
standard output and exits 0. -/
theorem c3_get_open_day_counterexample :
    (summarizeSpec [⟨"strt", "09:00:00"⟩]).map DaySummary.isOpen = some true ∧
      azk_get [⟨"strt", "09:00:00"⟩] "2023-06-15" =
        some ⟨["Worked for 09:00 on 2023-06-15.\nFrom 09:00 to 18:00"],
          [dbgLine 32400 32400], 0⟩ := by
  exact ⟨by decide, by decide⟩

/-- Claim C3 (amended): when `get` reads a day's log whose code-computed
`duration` (sum of clock-in times minus sum of clock-out times) is negative,
it prints `Work ain't over yet.` to standard output and exits 0; when the
`duration` is nonnegative it prints the worked duration and the
from/to clock range to standard output (plus a debug line on stderr) and
exits 0. -/
theorem c3_get_behavior_amended (recs : List Record) (day : String) (info : DayInfo)
    (h : read_work_time recs = some info) :
    (info.duration < 0 →
        azk_get recs day = some ⟨["Work ain\x27t over yet."], [], 0⟩) ∧
      (0 ≤ info.duration →
        azk_get recs day =
          some ⟨["Worked for " ++ s_to_hhmm info.duration ++ " on " ++ day ++
                  ".\nFrom " ++ s_to_hhmm info.start ++ " to " ++
                  s_to_hhmm (info.start + info.duration)],
                [dbgLine info.start info.duration], 0⟩) := by
  constructor
  · intro hneg
    simp only [azk_get, h]
    rw [if_pos hneg]
  · intro hpos
    simp only [azk_get, h]
    rw [if_neg (by omega)]

theorem c3_get_behavior_amended_witness :
    azk_get [⟨"strt", "09:00:00"⟩, ⟨"stop", "17:00:00"⟩] "2023-06-15" =
      some ⟨["Work ain\x27t over yet."], [], 0⟩ :=
  (c3_get_behavior_amended [⟨"strt", "09:00:00"⟩, ⟨"stop", "17:00:00"⟩] "2023-06-15"
    ⟨32400, -28800⟩ (by decide)).1 (by decide)

/-- Claim C10 counterexample: on `[ClockIn@09:00:00]` the code prints a
report whose "to" clock is `18:00`, while the claimed value — the first
clock-in time plus the spec's net duration — is `0`, formatting as
`"00:00"`; and on the single clock-in/clock-out pair day, where the claim
says the displayed "to" coincides with the last clock-out, the code prints
no finished-day report at all. -/
theorem c10_to_time_counterexample :
    azk_get [⟨"strt", "09:00:00"⟩] "2023-06-15" =
      some ⟨["Worked for 09:00 on 2023-06-15.\nFrom 09:00 to 18:00"],
        [dbgLine 32400 32400], 0⟩ ∧
      (summarizeSpec [⟨"strt", "09:00:00"⟩]).map
          (fun su => su.firstClockIn + su.netDuration) = some 0 ∧
      s_to_hhmm 0 = "00:00" ∧
      azk_get [⟨"strt", "09:00:00"⟩, ⟨"stop", "17:00:00"⟩] "2023-06-15" =
        some ⟨["Work ain\x27t over yet."], [], 0⟩ := by
  exact ⟨by decide, by decide, by decide, by decide⟩

/-- Claim C10 (amended): whenever `get` prints a day's report (which it does
exactly when the code's `duration` — sum of clock-in times minus sum of
clock-out times — is nonnegative), the displayed "to" clock is
`s_to_hhmm (start + duration)` computed from the code's `duration`, not the
time of the last clock-out record. -/
theorem c10_to_time_amended (recs : List Record) (day : String) (info : DayInfo)
    (h : read_work_time recs = some info) (hpos : 0 ≤ info.duration) :
    (azk_get recs day).map GetOutput.stdoutLines =
      some ["Worked for " ++ s_to_hhmm info.duration ++ " on " ++ day ++
              ".\nFrom " ++ s_to_hhmm info.start ++ " to " ++
              s_to_hhmm (info.start + info.duration)] := by
  simp only [azk_get, h]
  rw [if_neg (by omega)]
  rfl

theorem c10_to_time_amended_witness :
    (azk_get [⟨"strt", "09:00:00"⟩] "2023-06-15").map GetOutput.stdoutLines =
      some ["Worked for " ++ s_to_hhmm 32400 ++ " on " ++ "2023-06-15" ++
              ".\nFrom " ++ s_to_hhmm 32400 ++ " to " ++ s_to_hhmm (32400 + 32400)] :=
  c10_to_time_amended [⟨"strt", "09:00:00"⟩] "2023-06-15" ⟨32400, 32400⟩
    (by decide) (by decide)
